import Mathlib

/-!
Shallow embedding of the secure message channel from kenpratt/go-challenge-2.

The repository builds a confidential, integrity-protected, message-oriented
channel on top of an ordered byte transport.  The canonical variant (the one
the design document adopts) uses a 4-byte little-endian length prefix:

* `SecureWriter.Write` (secure_writer source): draws a fresh 24-byte nonce,
  seals the message with NaCl box (the sealed output is appended to the nonce,
  so `encrypted = nonce ++ ciphertext`), writes `uint32(len(encrypted))` in
  little-endian order to the transport, then writes `encrypted`.
* `SecureReader.Read` (secure_reader.go): keeps an optional buffer of decrypted
  plaintext.  When the buffer is nil it pulls one frame from the transport
  (`ReadNextEncryptedMessage`): a `binary.Read` of a `uint32` length, an
  `io.ReadFull` of that many payload bytes, a split into `data[0:24]` (nonce)
  and `data[24:]` (ciphertext), and a `box.Open`.  It then serves
  `min(len(buffer), len(out))` bytes to the caller, stashing any remainder.
* `Dial` (main.go): generates a key pair, connects, writes the raw 32-byte
  public key, performs one `conn.Read` into a 32-byte array for the peer key,
  and builds an `EncryptedConnection`.

Bytes are modelled as `Nat`, byte strings as `List Nat`, the transport byte
stream seen by the reader as the `List Nat` of bytes delivered before the
peer closed the stream.  The NaCl box primitive is an external collaborator
and is kept abstract as a `BoxPrimitive` structure; concrete toy instances
are used only to evaluate theorems on explicit inputs.
-/

namespace GoChallenge2

/-- External AEAD collaborator (golang.org/x/crypto/nacl/box).
`seal message nonce peerPub ownPriv` returns the ciphertext (tag included,
nonce NOT included: the caller prepends it, as `box.Seal(nonce[:], ...)` does).
`openBox ciphertext nonce peerPub ownPriv` returns `some plaintext` on
successful authentication and `none` on failure, mirroring the
`(plaintext, success bool)` result of `box.Open`. -/
structure BoxPrimitive where
  Seal : List Nat → List Nat → List Nat → List Nat → List Nat
  Open : List Nat → List Nat → List Nat → List Nat → Option (List Nat)

/-- Little-endian byte encoding of `uint32(v)`, as produced by
`binary.Write(w, binary.LittleEndian, uint32(v))`.  Taking each byte modulo
256 makes this exactly the encoding of `v % 2^32`. -/
def uint32LE (v : Nat) : List Nat :=
  [v % 256, v / 256 % 256, v / 256 / 256 % 256, v / 256 / 256 / 256 % 256]

/-- Value read back by `binary.Read(r, binary.LittleEndian, &u32)` from the
first four bytes of a stream. -/
def leVal32 (bs : List Nat) : Nat :=
  bs.headD 0 + 256 * (bs.tail.headD 0) + 65536 * (bs.tail.tail.headD 0) +
    16777216 * (bs.tail.tail.tail.headD 0)

/-- Model of the `io.Writer` the secure writer sends frames to.  `wire` is
what has been accepted so far, `calls` counts `Write` invocations, and
`failOn` says which invocations fail (an `io.Writer` is allowed to reject a
write with an error; this model makes a failing call write nothing). -/
structure FWriter where
  wire : List Nat
  calls : Nat
  failOn : Nat → Bool

/-- One transport `Write` call: either the whole chunk is accepted or the
call errors, returning `false`. -/
def FWriter.write (w : FWriter) (chunk : List Nat) : FWriter × Bool :=
  if w.failOn w.calls then (⟨w.wire, w.calls + 1, w.failOn⟩, false)
  else (⟨w.wire ++ chunk, w.calls + 1, w.failOn⟩, true)

/-- Result of `SecureWriter.Write`: the transport state afterwards, the
returned byte count `n`, and whether the call succeeded (`err == nil`). -/
structure WriteResult where
  w : FWriter
  n : Nat
  ok : Bool

/-- `SecureWriter.Write` (secure_writer source, 4-byte-prefix variant):
`encrypted := box.Seal(nonce[:], message, nonce, sw.pub, sw.priv)` — i.e.
nonce followed by ciphertext; write `uint32(len(encrypted))` little-endian;
on error return `(0, err)`; write `encrypted`; on error return `(0, err)`;
otherwise return `(len(message), nil)`.  The freshly drawn random nonce is a
parameter. -/
def secureWriterWrite (B : BoxPrimitive) (priv pub nonce message : List Nat)
    (w : FWriter) : WriteResult :=
  let encrypted := nonce ++ B.Seal message nonce pub priv
  let step1 := w.write (uint32LE encrypted.length)
  if step1.2 = false then ⟨step1.1, 0, false⟩
  else
    let step2 := step1.1.write encrypted
    if step2.2 = false then ⟨step2.1, 0, false⟩
    else ⟨step2.1, message.length, true⟩

/-- The full frame a successful `SecureWriter.Write` call appends to the
wire: length prefix, then `encrypted = nonce ++ ciphertext`. -/
def frameOf (B : BoxPrimitive) (priv pub nonce message : List Nat) : List Nat :=
  uint32LE (nonce ++ B.Seal message nonce pub priv).length ++
    (nonce ++ B.Seal message nonce pub priv)

/-- Errors `SecureReader.Read` can return: `io.EOF` (clean closure before a
frame header), `io.ErrUnexpectedEOF` (stream truncated inside a header or
payload, as returned by `binary.Read`/`io.ReadFull`), and the `ReadError`
raised when `box.Open` reports failure. -/
inductive RErr
  | eof
  | unexpectedEOF
  | decryptError
deriving DecidableEq

/-- Result of `SecureReader.ReadNextEncryptedMessage`: the decrypted
plaintext plus the unconsumed remainder of the stream, an error plus the
remainder, or a runtime panic (Go slice-bounds violation). -/
inductive NextResult
  | ok (plain : List Nat) (rest : List Nat)
  | fail (e : RErr) (rest : List Nat)
  | panicked
deriving DecidableEq

/-- `SecureReader.ReadNextEncryptedMessage` (secure_reader.go): read a
`uint32` payload size (EOF with no bytes → `io.EOF`; truncated →
`io.ErrUnexpectedEOF`), `io.ReadFull` that many bytes (same error split),
slice the payload as `data[0:24]` / `data[24:]` — which PANICS when the
declared payload length is below 24, since `cap(data) = payloadSize` — and
`box.Open` the ciphertext, failing with a `ReadError` when authentication
fails. -/
def readNextEncryptedMessage (B : BoxPrimitive) (priv pub : List Nat)
    (s : List Nat) : NextResult :=
  if s.length = 0 then .fail .eof s
  else if s.length < 4 then .fail .unexpectedEOF []
  else
    let payloadSize := leVal32 (s.take 4)
    let s1 := s.drop 4
    if s1.length < payloadSize then
      if s1.length = 0 then .fail .eof [] else .fail .unexpectedEOF []
    else
      let data := s1.take payloadSize
      let s2 := s1.drop payloadSize
      if payloadSize < 24 then .panicked
      else
        match B.Open (data.drop 24) (data.take 24) pub priv with
        | some decrypted => .ok decrypted s2
        | none => .fail .decryptError s2

/-- State of a `SecureReader`: the optional buffer of already-decrypted,
not-yet-delivered plaintext (`nil` in Go ↔ `none`; note Go's non-nil empty
slice ↔ `some []`), and the transport bytes not yet consumed. -/
structure ReaderState where
  buffer : Option (List Nat)
  stream : List Nat
deriving DecidableEq

/-- Result of one `SecureReader.Read` call: `(n, nil)` with the bytes `out`
copied into the caller's buffer and the successor state, `(n, err)`, or a
panic propagating out of `ReadNextEncryptedMessage`. -/
inductive ReadResult
  | ok (n : Nat) (out : List Nat) (st : ReaderState)
  | fail (n : Nat) (e : RErr) (st : ReaderState)
  | panicked
deriving DecidableEq

/-- The buffer-serving step shared by the reader: Go's
`if len(sr.buffer) > len(out)` split.  Returns the bytes copied to the
caller and the new value of `sr.buffer`. -/
def serveFromBuffer (buf : List Nat) (c : Nat) : List Nat × Option (List Nat) :=
  if c < buf.length then (buf.take c, some (buf.drop c))
  else (buf, none)

/-- `SecureReader.Read` (secure_reader.go) with a caller buffer of capacity
`c`: when the buffer is nil, acquire and decrypt the next frame (errors are
returned as `(0, err)` with the buffer still nil); then serve as much
buffered plaintext as fits. -/
def secureRead (B : BoxPrimitive) (priv pub : List Nat) (st : ReaderState)
    (c : Nat) : ReadResult :=
  match st.buffer with
  | some buf =>
      let step := serveFromBuffer buf c
      .ok step.1.length step.1 ⟨step.2, st.stream⟩
  | none =>
      match readNextEncryptedMessage B priv pub st.stream with
      | .fail e rest => .fail 0 e ⟨none, rest⟩
      | .panicked => .panicked
      | .ok plain rest =>
          let step := serveFromBuffer plain c
          .ok step.1.length step.1 ⟨step.2, rest⟩

/-- Drive the reader with successive caller capacities `caps` until the
internal buffer is empty again (the current frame is drained), concatenating
the delivered chunks.  `none` when the capacities run out before the frame
is drained or when any call fails. -/
def drainLoop (B : BoxPrimitive) (priv pub : List Nat) (caps : List Nat)
    (st : ReaderState) : Option (List Nat) :=
  match caps with
  | [] => none
  | c :: cs =>
      match secureRead B priv pub st c with
      | .ok _ out st' =>
          match st'.buffer with
          | none => some out
          | some _ => (drainLoop B priv pub cs st').map (fun t => out ++ t)
      | _ => none

/-- Result of `Dial` (main.go): either a constructed `EncryptedConnection`
described by what the handshake actually did — the 32 public-key bytes sent,
the private key and peer-public-key array the connection is bound to, and
how many bytes the single peer-key `conn.Read` call consumed — or a fatal
error (`Dial` returns `(nil, err)` and never retries). -/
inductive DialResult
  | ok (sent : List Nat) (priv : List Nat) (peerPub : List Nat) (nRead : Nat)
  | fail
deriving DecidableEq

/-- `Dial` (main.go): `box.GenerateKey` (result `keyRes`; `none` = error),
`net.Dial` (`connOk`), `conn.Write(pub[:])` (`writeOk`), then ONE
`conn.Read(peerPub[:])` into a zero-initialised `[32]byte`.  The transport
read is modelled by `readRes`: `none` for an I/O error, `some nRead` for a
call that delivered the first `nRead` bytes of the peer's `incoming` stream
(a stream read may legally return fewer than 32 bytes).  The code ignores
the returned count, so `peerPub` is those bytes padded with the array's
zeroes.  On success it builds the `EncryptedConnection` from
`(conn, priv, &peerPub)`. -/
def dial (keyRes : Option (List Nat × List Nat)) (connOk writeOk : Bool)
    (readRes : Option Nat) (incoming : List Nat) : DialResult :=
  match keyRes with
  | none => .fail
  | some kp =>
      if connOk = false then .fail
      else if writeOk = false then .fail
      else
        match readRes with
        | none => .fail
        | some nRead =>
            .ok kp.1 kp.2 (incoming.take nRead ++ List.replicate (32 - nRead) 0) nRead

/-- Concrete stand-in for the box primitive, used only to evaluate theorems
on explicit inputs: the "ciphertext" is the plaintext plus a 16-byte tag of
7s, and opening strips the tag. -/
def testBox : BoxPrimitive where
  Seal := fun m _n _pub _priv => m ++ List.replicate 16 7
  Open := fun c _n _pub _priv =>
    if 16 ≤ c.length then some (c.take (c.length - 16)) else none

/-- Concrete stand-in for the box primitive whose `Open` always reports an
authentication failure, used to evaluate the tampered-frame theorems. -/
def noneBox : BoxPrimitive where
  Seal := fun m _n _pub _priv => m ++ List.replicate 16 7
  Open := fun _c _n _pub _priv => none

/-- The length-prefix encoding is four bytes wide. -/
theorem uint32LE_length (v : Nat) : (uint32LE v).length = 4 := rfl

/-- Decoding the four prefix bytes recovers the written value modulo `2^32`
(the `uint32(payloadSize)` conversion). -/
theorem leVal32_uint32LE (v : Nat) : leVal32 (uint32LE v) = v % 2 ^ 32 := by
  have h1 : v % (256 * 16777216) = v % 256 + 256 * (v / 256 % 16777216) := Nat.mod_mul
  have h2 : v / 256 % (256 * 65536) = v / 256 % 256 + 256 * (v / 256 / 256 % 65536) :=
    Nat.mod_mul
  have h3 : v / 256 / 256 % (256 * 256) =
      v / 256 / 256 % 256 + 256 * (v / 256 / 256 / 256 % 256) := Nat.mod_mul
  simp only [leVal32, uint32LE, List.headD, List.tail]
  norm_num at h1 h2 h3 ⊢
  omega

/-- On a transport that accepts every write, `SecureWriter.Write` appends
exactly one frame to the wire and returns `(len(message), nil)`. -/
theorem secureWriterWrite_ok (B : BoxPrimitive) (priv pub nonce message : List Nat)
    (w : FWriter) (hfail : ∀ k, w.failOn k = false) :
    secureWriterWrite B priv pub nonce message w =
      ⟨⟨w.wire ++ frameOf B priv pub nonce message, w.calls + 2, w.failOn⟩,
        message.length, true⟩ := by
  simp [secureWriterWrite, FWriter.write, hfail, frameOf]

/-- Decoding a well-formed frame at the head of the stream: the payload
length is read back, the payload split into its 24-byte nonce and the
ciphertext, and the result of `box.Open` decides between success and the
decryption `ReadError`.  The frame is consumed either way. -/
theorem readNext_frame (B : BoxPrimitive) (priv pub nonce ct s : List Nat)
    (hn : nonce.length = 24) (hsz : 24 + ct.length < 2 ^ 32) :
    readNextEncryptedMessage B priv pub
        (uint32LE (24 + ct.length) ++ ((nonce ++ ct) ++ s)) =
      match B.Open ct nonce pub priv with
      | some p => NextResult.ok p s
      | none => NextResult.fail RErr.decryptError s := by
  have hncl : (nonce ++ ct).length = 24 + ct.length := by simp [hn]
  have htake : (uint32LE (24 + ct.length) ++ ((nonce ++ ct) ++ s)).take 4 =
      uint32LE (24 + ct.length) := List.take_left' (uint32LE_length _)
  have hdrop : (uint32LE (24 + ct.length) ++ ((nonce ++ ct) ++ s)).drop 4 =
      (nonce ++ ct) ++ s := List.drop_left' (uint32LE_length _)
  have hL0 : ¬ (uint32LE (24 + ct.length) ++ ((nonce ++ ct) ++ s)).length = 0 := by
    simp [uint32LE]
  have hL4 : ¬ (uint32LE (24 + ct.length) ++ ((nonce ++ ct) ++ s)).length < 4 := by
    simp [uint32LE]
  have hpl : ¬ ((nonce ++ ct) ++ s).length < 24 + ct.length := by
    simp [hn]
  have hdata : ((nonce ++ ct) ++ s).take (24 + ct.length) = nonce ++ ct :=
    List.take_left' hncl
  have hs2 : ((nonce ++ ct) ++ s).drop (24 + ct.length) = s := List.drop_left' hncl
  have h24 : ¬ (24 + ct.length < 24) := by omega
  have hn24 : (nonce ++ ct).take 24 = nonce := List.take_left' hn
  have hct : (nonce ++ ct).drop 24 = ct := List.drop_left' hn
  rw [readNextEncryptedMessage]
  rw [if_neg hL0, if_neg hL4]
  rw [htake, hdrop, leVal32_uint32LE, Nat.mod_eq_of_lt hsz]
  rw [if_neg hpl, if_neg h24, hdata, hs2, hn24, hct]

/-- A `Read` call in the Holding state serves `min(len(buffer), c)` bytes
from the front of the buffer, clears the buffer when it fits and keeps the
remainder otherwise, and leaves the transport stream untouched. -/
theorem secureRead_holding (B : BoxPrimitive) (priv pub : List Nat)
    (buf stream : List Nat) (c : Nat) :
    secureRead B priv pub ⟨some buf, stream⟩ c =
      .ok (min buf.length c) (buf.take c)
        ⟨if buf.length ≤ c then none else some (buf.drop c), stream⟩ := by
  rw [secureRead]
  simp only [serveFromBuffer]
  by_cases h : c < buf.length
  · rw [if_pos h, if_neg (by omega : ¬ buf.length ≤ c)]
    simp [List.length_take, Nat.min_comm]
  · have hle : buf.length ≤ c := by omega
    rw [if_neg h, if_pos hle]
    simp [List.take_of_length_le hle, Nat.min_eq_left hle]

/-- Draining a Holding reader with enough positive capacities returns the
whole buffered plaintext, in order. -/
theorem drainLoop_holding (B : BoxPrimitive) (priv pub : List Nat) :
    ∀ (caps : List Nat) (buf stream : List Nat), 0 < caps.length →
      (∀ c ∈ caps, 0 < c) → buf.length ≤ caps.length →
      drainLoop B priv pub caps ⟨some buf, stream⟩ = some buf := by
  intro caps
  induction caps with
  | nil => intro buf stream h; simp at h
  | cons c cs ih =>
      intro buf stream _ hpos hlen
      rw [drainLoop, secureRead_holding]
      by_cases h : buf.length ≤ c
      · simp [h, List.take_of_length_le h]
      · have hc : 0 < c := hpos c (by simp)
        simp only [List.length_cons] at hlen
        have hlen' : (buf.drop c).length ≤ cs.length := by
          simp only [List.length_drop]
          omega
        have hcs : 0 < cs.length := by omega
        simp only [if_neg h]
        rw [ih (buf.drop c) stream hcs (fun x hx => hpos x (by simp [hx])) hlen']
        simp [List.take_append_drop]

/-- A `Read` call in the Empty state whose frame acquisition succeeds serves
the decrypted plaintext exactly like a Holding-state call would. -/
theorem secureRead_empty_ok (B : BoxPrimitive) (priv pub : List Nat)
    (stream plain rest : List Nat) (c : Nat)
    (h : readNextEncryptedMessage B priv pub stream = .ok plain rest) :
    secureRead B priv pub ⟨none, stream⟩ c =
      .ok (min plain.length c) (plain.take c)
        ⟨if plain.length ≤ c then none else some (plain.drop c), rest⟩ := by
  rw [secureRead]
  simp only [h, serveFromBuffer]
  by_cases hc : c < plain.length
  · rw [if_pos hc, if_neg (by omega : ¬ plain.length ≤ c)]
    simp [List.length_take, Nat.min_comm]
  · have hle : plain.length ≤ c := by omega
    rw [if_neg hc, if_pos hle]
    simp [List.take_of_length_le hle, Nat.min_eq_left hle]

/-- Claim C1: writing a message `m` with `SecureWriter.Write` and then
repeatedly calling the paired `SecureReader.Read` over the connecting byte
stream with positive caller capacities, until `m`'s frame is drained,
delivers exactly the bytes of `m` in order — for every `m` (the empty
message included) and every long-enough sequence of positive capacities —
assuming the AEAD collaborator opens what it sealed. -/
theorem roundTripDelivery (B : BoxPrimitive) (privA pubA privB pubB nonce m : List Nat)
    (caps : List Nat)
    (hn : nonce.length = 24)
    (hsz : 24 + (B.Seal m nonce pubB privA).length < 2 ^ 32)
    (hopen : B.Open (B.Seal m nonce pubB privA) nonce pubA privB = some m)
    (hpos : ∀ c ∈ caps, 0 < c)
    (hlen : m.length + 1 ≤ caps.length) :
    drainLoop B privB pubA caps
      ⟨none, (secureWriterWrite B privA pubB nonce m ⟨[], 0, fun _ => false⟩).w.wire⟩ =
      some m := by
  rw [secureWriterWrite_ok B privA pubB nonce m _ (fun _ => rfl)]
  have hct : (nonce ++ B.Seal m nonce pubB privA).length =
      24 + (B.Seal m nonce pubB privA).length := by simp [hn]
  have hframe : frameOf B privA pubB nonce m =
      uint32LE (24 + (B.Seal m nonce pubB privA).length) ++
        ((nonce ++ B.Seal m nonce pubB privA) ++ []) := by
    simp [frameOf, hct]
  have hread : readNextEncryptedMessage B privB pubA (frameOf B privA pubB nonce m) =
      .ok m [] := by
    rw [hframe, readNext_frame B privB pubA nonce _ [] hn hsz, hopen]
  cases caps with
  | nil => simp at hlen
  | cons c cs =>
      rw [drainLoop]
      have hread' : readNextEncryptedMessage B privB pubA
          ([] ++ frameOf B privA pubB nonce m) = .ok m [] := by simpa using hread
      rw [secureRead_empty_ok B privB pubA _ _ _ c hread']
      by_cases h : m.length ≤ c
      · simp [h, List.take_of_length_le h]
      · have hc : 0 < c := hpos c (by simp)
        simp only [List.length_cons] at hlen
        simp only [if_neg h]
        have hdrain : drainLoop B privB pubA cs ⟨some (m.drop c), []⟩ =
            some (m.drop c) := by
          apply drainLoop_holding
          · omega
          · exact fun x hx => hpos x (by simp [hx])
          · simp only [List.length_drop]; omega
        simp [hdrain, List.take_append_drop]

/-- Witness for claim C1: round trip of `[10, 11, 12]` through the writer
and a reader driven with capacity 2 per call. -/
theorem roundTripDelivery_witness :
    testBox.Open (testBox.Seal [10, 11, 12] (List.replicate 24 9) [2] [1])
        (List.replicate 24 9) [4] [3] = some [10, 11, 12]
    ∧ drainLoop testBox [3] [4] [2, 2, 2, 2]
        ⟨none, (secureWriterWrite testBox [1] [2] (List.replicate 24 9) [10, 11, 12]
          ⟨[], 0, fun _ => false⟩).w.wire⟩ = some [10, 11, 12] :=
  ⟨by decide,
   roundTripDelivery testBox [1] [4] [3] [2] (List.replicate 24 9) [10, 11, 12]
     [2, 2, 2, 2] (by decide) (by decide) (by decide) (by decide) (by decide)⟩

/-- Claim C2 is false as stated: on a transport that accepts the first
write call (the 4-byte length prefix) and fails the second (the
`encrypted` payload), `SecureWriter.Write` returns an error having left
exactly the first 4 bytes of the 45-byte frame on the wire — some but not
all frame bytes were written and an error is returned. -/
theorem writeAtomicity_counterexample :
    (secureWriterWrite testBox [1] [2] (List.replicate 24 9) [10]
        ⟨[], 0, fun k => decide (k = 1)⟩).ok = false
    ∧ (secureWriterWrite testBox [1] [2] (List.replicate 24 9) [10]
        ⟨[], 0, fun k => decide (k = 1)⟩).w.wire =
      (frameOf testBox [1] [2] (List.replicate 24 9) [10]).take 4
    ∧ 0 < ((secureWriterWrite testBox [1] [2] (List.replicate 24 9) [10]
        ⟨[], 0, fun k => decide (k = 1)⟩).w.wire).length
    ∧ (frameOf testBox [1] [2] (List.replicate 24 9) [10]).length = 45 := by decide

/-- Claim C2 (amended): `SecureWriter.Write` either writes the entire frame
and returns `bytesWritten = len(message)` with no error, or returns an
error with `bytesWritten = 0` having left some (possibly empty, possibly
proper) leading portion of the frame on the wire; a successful return never
leaves a partial frame. -/
theorem writeFrameOrFailure (B : BoxPrimitive) (priv pub nonce message : List Nat)
    (w : FWriter) :
    ((secureWriterWrite B priv pub nonce message w).ok = true →
      (secureWriterWrite B priv pub nonce message w).w.wire =
        w.wire ++ frameOf B priv pub nonce message ∧
      (secureWriterWrite B priv pub nonce message w).n = message.length)
    ∧ ((secureWriterWrite B priv pub nonce message w).ok = false →
      (secureWriterWrite B priv pub nonce message w).n = 0 ∧
      ∃ t, (secureWriterWrite B priv pub nonce message w).w.wire ++ t =
        w.wire ++ frameOf B priv pub nonce message) := by
  by_cases h0 : w.failOn w.calls
  · constructor
    · intro hok
      simp [secureWriterWrite, FWriter.write, h0] at hok
    · intro hfail
      refine ⟨by simp [secureWriterWrite, FWriter.write, h0],
        frameOf B priv pub nonce message, ?_⟩
      simp [secureWriterWrite, FWriter.write, h0]
  · by_cases h1 : w.failOn (w.calls + 1)
    · constructor
      · intro hok
        simp [secureWriterWrite, FWriter.write, h0, h1] at hok
      · intro hfail
        refine ⟨by simp [secureWriterWrite, FWriter.write, h0, h1],
          nonce ++ B.Seal message nonce pub priv, ?_⟩
        simp [secureWriterWrite, FWriter.write, h0, h1, frameOf]
    · constructor
      · intro hok
        constructor
        · simp [secureWriterWrite, FWriter.write, h0, h1, frameOf]
        · simp [secureWriterWrite, FWriter.write, h0, h1]
      · intro hfail
        simp [secureWriterWrite, FWriter.write, h0, h1] at hfail

/-- Witness for the amended claim C2: a successful write appends the whole
frame and reports the message length. -/
theorem writeFrameOrFailure_witness :
    (secureWriterWrite testBox [1] [2] (List.replicate 24 9) [10, 11]
        ⟨[], 0, fun _ => false⟩).w.wire =
      [] ++ frameOf testBox [1] [2] (List.replicate 24 9) [10, 11]
    ∧ (secureWriterWrite testBox [1] [2] (List.replicate 24 9) [10, 11]
        ⟨[], 0, fun _ => false⟩).n = 2 :=
  (writeFrameOrFailure testBox [1] [2] (List.replicate 24 9) [10, 11]
    ⟨[], 0, fun _ => false⟩).1 (by decide)

/-- Claim C3: on a frame whose AEAD open fails, `SecureReader.Read` returns
`(0, error)`, delivers no plaintext, leaves the buffer state unchanged
(still empty), and consumes the frame from the stream — so the same frame
is never retried: the next `Read` starts at the bytes after it. -/
theorem authFailureFatal (B : BoxPrimitive) (priv pub nonce ct s : List Nat) (c : Nat)
    (hn : nonce.length = 24) (hsz : 24 + ct.length < 2 ^ 32)
    (hopen : B.Open ct nonce pub priv = none) :
    secureRead B priv pub ⟨none, uint32LE (24 + ct.length) ++ ((nonce ++ ct) ++ s)⟩ c =
      .fail 0 .decryptError ⟨none, s⟩ := by
  rw [secureRead, readNext_frame B priv pub nonce ct s hn hsz, hopen]

/-- Witness for claim C3: a 16-byte ciphertext that fails authentication is
rejected with `(0, ReadError)`, the buffer stays empty, and the stream
position is past the frame. -/
theorem authFailureFatal_witness :
    noneBox.Open (List.replicate 16 1) (List.replicate 24 0) [2] [3] = none
    ∧ secureRead noneBox [3] [2]
        ⟨none, uint32LE (24 + (List.replicate 16 1 : List Nat).length) ++
          ((List.replicate 24 0 ++ List.replicate 16 1) ++ [5])⟩ 9 =
        .fail 0 .decryptError ⟨none, [5]⟩ :=
  ⟨rfl, authFailureFatal noneBox [3] [2] (List.replicate 24 0) (List.replicate 16 1)
    [5] 9 (by decide) (by decide) rfl⟩

/-- Claim C4 is violated by the code: `Dial` performs a single `conn.Read`
into the 32-byte peer-key array and ignores the byte count.  With the peer
sending its full 32-byte key but the transport legally delivering only one
byte on that read call, `Dial` succeeds and constructs the encrypted
connection with a peer key made of 1 transported byte and 31 zero bytes,
having consumed 1 ≠ 32 bytes — it does not block until all 32 bytes have
arrived. -/
theorem dialShortRead :
    dial (some (List.replicate 32 3, List.replicate 32 4)) true true (some 1)
        (List.replicate 32 7) =
      .ok (List.replicate 32 3) (List.replicate 32 4) (7 :: List.replicate 31 0) 1
    ∧ (7 :: List.replicate 31 0) ≠ List.replicate 32 7
    ∧ (1 : Nat) ≠ 32 := by decide

/-- Claim C5: a successful `SecureWriter.Write` emits the little-endian
4-byte length prefix, then the 24-byte nonce, then the ciphertext; the
prefix decodes to `24 + len(ciphertext)` — it counts nonce plus ciphertext
and not its own width. -/
theorem wireFormatFrame (B : BoxPrimitive) (priv pub nonce message : List Nat)
    (w : FWriter) (hn : nonce.length = 24)
    (hfail : ∀ k, w.failOn k = false)
    (hsz : 24 + (B.Seal message nonce pub priv).length < 2 ^ 32) :
    (secureWriterWrite B priv pub nonce message w).w.wire =
      w.wire ++ (uint32LE (24 + (B.Seal message nonce pub priv).length) ++
        (nonce ++ B.Seal message nonce pub priv))
    ∧ leVal32 (uint32LE (24 + (B.Seal message nonce pub priv).length)) =
      24 + (B.Seal message nonce pub priv).length := by
  constructor
  · rw [secureWriterWrite_ok B priv pub nonce message w hfail]
    simp [frameOf, hn]
  · rw [leVal32_uint32LE, Nat.mod_eq_of_lt hsz]

/-- Witness for claim C5 on a one-byte message. -/
theorem wireFormatFrame_witness :
    (secureWriterWrite testBox [1] [2] (List.replicate 24 9) [10]
        ⟨[], 0, fun _ => false⟩).w.wire =
      [] ++ (uint32LE (24 + (testBox.Seal [10] (List.replicate 24 9) [2] [1]).length) ++
        (List.replicate 24 9 ++ testBox.Seal [10] (List.replicate 24 9) [2] [1]))
    ∧ leVal32 (uint32LE (24 + (testBox.Seal [10] (List.replicate 24 9) [2] [1]).length)) =
      24 + (testBox.Seal [10] (List.replicate 24 9) [2] [1]).length :=
  wireFormatFrame testBox [1] [2] (List.replicate 24 9) [10] ⟨[], 0, fun _ => false⟩
    (by decide) (fun _ => rfl) (by decide)

/-- Claim C6: when the reader goes to read a frame header and the transport
has closed with zero bytes available, `Read` signals clean end-of-channel
(`io.EOF`); when the transport closed after only part of the 4-byte prefix,
it signals the distinct truncation error `io.ErrUnexpectedEOF`. -/
theorem headerEOFSemantics (B : BoxPrimitive) (priv pub : List Nat) (c : Nat) :
    secureRead B priv pub ⟨none, []⟩ c = .fail 0 .eof ⟨none, []⟩
    ∧ (∀ s : List Nat, 0 < s.length → s.length < 4 →
        secureRead B priv pub ⟨none, s⟩ c = .fail 0 .unexpectedEOF ⟨none, []⟩)
    ∧ RErr.eof ≠ RErr.unexpectedEOF := by
  refine ⟨?_, ?_, by decide⟩
  · rw [secureRead, readNextEncryptedMessage]
    simp
  · intro s h0 h4
    rw [secureRead, readNextEncryptedMessage,
      if_neg (show ¬ s.length = 0 by omega), if_pos h4]

/-- Witness for claim C6: the empty stream gives clean EOF, a 2-byte stream
gives the truncation error. -/
theorem headerEOFSemantics_witness :
    secureRead testBox [1] [2] ⟨none, []⟩ 7 = .fail 0 .eof ⟨none, []⟩
    ∧ secureRead testBox [1] [2] ⟨none, [1, 2]⟩ 7 =
        .fail 0 .unexpectedEOF ⟨none, []⟩
    ∧ RErr.eof ≠ RErr.unexpectedEOF :=
  ⟨(headerEOFSemantics testBox [1] [2] 7).1,
   (headerEOFSemantics testBox [1] [2] 7).2.1 [1, 2] (by decide) (by decide),
   (headerEOFSemantics testBox [1] [2] 7).2.2⟩

/-- Claim C7: a `Read` in the Holding state with buffered length `L > 0`
and caller capacity `C` returns exactly `min(L, C)` bytes (the first `C`
of the buffer); if `C ≥ L` the buffer is cleared back to Empty, and if
`C < L` exactly the last `L - C` bytes (`buf.drop C`, the complement of the
served `buf.take C`) are retained for later reads. -/
theorem holdingStateDelivery (B : BoxPrimitive) (priv pub : List Nat)
    (buf stream : List Nat) (c : Nat) (hL : 0 < buf.length) :
    (secureRead B priv pub ⟨some buf, stream⟩ c =
      .ok (min buf.length c) (buf.take c)
        ⟨if buf.length ≤ c then none else some (buf.drop c), stream⟩)
    ∧ buf.take c ++ buf.drop c = buf :=
  ⟨secureRead_holding B priv pub buf stream c, List.take_append_drop c buf⟩

/-- Witness for claim C7: serving 2 of 3 buffered bytes. -/
theorem holdingStateDelivery_witness :
    (0 : Nat) < ([5, 6, 7] : List Nat).length
    ∧ ((secureRead testBox [1] [2] ⟨some [5, 6, 7], [9]⟩ 2 =
        .ok (min ([5, 6, 7] : List Nat).length 2) (([5, 6, 7] : List Nat).take 2)
          ⟨if ([5, 6, 7] : List Nat).length ≤ 2 then none
            else some (([5, 6, 7] : List Nat).drop 2), [9]⟩)
      ∧ ([5, 6, 7] : List Nat).take 2 ++ ([5, 6, 7] : List Nat).drop 2 = [5, 6, 7]) :=
  ⟨by decide, holdingStateDelivery testBox [1] [2] [5, 6, 7] [9] 2 (by decide)⟩

/-- Claim C8: the buffer only ever holds plaintext of a single decrypted
frame.  A `Read` in the Holding state serves from the buffer without
touching the transport stream and leaves at most a suffix of the same
plaintext buffered; a successful `Read` in the Empty state acquires exactly
one frame (`ReadNextEncryptedMessage` on the current stream position),
delivers a front portion of that frame's plaintext, and buffers at most the
rest of it — plaintext of two frames is never mixed. -/
theorem singleFrameBufferInvariant (B : BoxPrimitive) (priv pub : List Nat) (c : Nat) :
    (∀ buf stream, secureRead B priv pub ⟨some buf, stream⟩ c =
        .ok (min buf.length c) (buf.take c)
          ⟨if buf.length ≤ c then none else some (buf.drop c), stream⟩)
    ∧ (∀ stream n out st', secureRead B priv pub ⟨none, stream⟩ c = .ok n out st' →
        ∃ plain rest, readNextEncryptedMessage B priv pub stream = .ok plain rest ∧
          out = plain.take c ∧
          st' = ⟨if plain.length ≤ c then none else some (plain.drop c), rest⟩) := by
  constructor
  · intro buf stream
    exact secureRead_holding B priv pub buf stream c
  · intro stream n out st' h
    cases hnext : readNextEncryptedMessage B priv pub stream with
    | ok plain rest =>
        rw [secureRead_empty_ok B priv pub stream plain rest c hnext] at h
        injection h with e1 e2 e3
        exact ⟨plain, rest, rfl, e2.symm, e3.symm⟩
    | fail e rest =>
        rw [secureRead] at h
        simp [hnext] at h
    | panicked =>
        rw [secureRead] at h
        simp [hnext] at h

/-- Witness for claim C8: a Holding-state read leaving the stream alone and
an Empty-state read acquiring one concrete frame. -/
theorem singleFrameBufferInvariant_witness :
    (secureRead testBox [3] [4] ⟨some [5, 6, 7], [9]⟩ 2 =
      .ok (min ([5, 6, 7] : List Nat).length 2) (([5, 6, 7] : List Nat).take 2)
        ⟨if ([5, 6, 7] : List Nat).length ≤ 2 then none
          else some (([5, 6, 7] : List Nat).drop 2), [9]⟩)
    ∧ ∃ plain rest,
        readNextEncryptedMessage testBox [3] [4]
          (uint32LE 43 ++ (List.replicate 24 9 ++ ([10, 11, 12] ++ List.replicate 16 7))) =
          .ok plain rest
        ∧ [10, 11] = plain.take 2
        ∧ (⟨some [12], []⟩ : ReaderState) =
            ⟨if plain.length ≤ 2 then none else some (plain.drop 2), rest⟩ :=
  ⟨(singleFrameBufferInvariant testBox [3] [4] 2).1 [5, 6, 7] [9],
   (singleFrameBufferInvariant testBox [3] [4] 2).2
     (uint32LE 43 ++ (List.replicate 24 9 ++ ([10, 11, 12] ++ List.replicate 16 7)))
     2 [10, 11] ⟨some [12], []⟩ (by decide)⟩

/-- Claim C9: writing the identical message twice under the same key pair
with two different freshly drawn 24-byte nonces produces two different
wire-level frame byte sequences — the nonce appears verbatim at bytes 4..27
of the frame, so distinct nonces force distinct frames. -/
theorem distinctNoncesDistinctFrames (B : BoxPrimitive) (priv pub n1 n2 m : List Nat)
    (w : FWriter) (hfail : ∀ k, w.failOn k = false)
    (h1 : n1.length = 24) (h2 : n2.length = 24) (hne : n1 ≠ n2) :
    (secureWriterWrite B priv pub n1 m w).w.wire ≠
      (secureWriterWrite B priv pub n2 m w).w.wire := by
  rw [secureWriterWrite_ok B priv pub n1 m w hfail,
    secureWriterWrite_ok B priv pub n2 m w hfail]
  intro h
  have h3 : frameOf B priv pub n1 m = frameOf B priv pub n2 m :=
    List.append_cancel_left h
  have e1 : (frameOf B priv pub n1 m).drop 4 = n1 ++ B.Seal m n1 pub priv := by
    rw [frameOf]; exact List.drop_left' (uint32LE_length _)
  have e2 : (frameOf B priv pub n2 m).drop 4 = n2 ++ B.Seal m n2 pub priv := by
    rw [frameOf]; exact List.drop_left' (uint32LE_length _)
  have e3 : n1 ++ B.Seal m n1 pub priv = n2 ++ B.Seal m n2 pub priv := by
    rw [← e1, ← e2, h3]
  have e4 : n1 = n2 := by
    have t1 : (n1 ++ B.Seal m n1 pub priv).take 24 = n1 := List.take_left' h1
    have t2 : (n2 ++ B.Seal m n2 pub priv).take 24 = n2 := List.take_left' h2
    rw [← t1, ← t2, e3]
  exact hne e4

/-- Witness for claim C9: two concrete distinct nonces give distinct
frames for the same message and keys. -/
theorem distinctNoncesDistinctFrames_witness :
    (List.replicate 24 0 : List Nat) ≠ List.replicate 23 0 ++ [1]
    ∧ (secureWriterWrite testBox [1] [2] (List.replicate 24 0) [10]
        ⟨[], 0, fun _ => false⟩).w.wire ≠
      (secureWriterWrite testBox [1] [2] (List.replicate 23 0 ++ [1]) [10]
        ⟨[], 0, fun _ => false⟩).w.wire :=
  ⟨by decide, distinctNoncesDistinctFrames testBox [1] [2] (List.replicate 24 0)
    (List.replicate 23 0 ++ [1]) [10] ⟨[], 0, fun _ => false⟩ (fun _ => rfl)
    (by decide) (by decide) (by decide)⟩

/-- Claim C10 names the intended behavior, but the code violates it: on a
stream whose frame header declares a 10-byte payload (less than the 24-byte
nonce), `SecureReader.Read` reaches `data[0:24]` on a slice of length and
capacity 10 and crashes with a slice-bounds violation instead of returning
an error result. -/
theorem shortPayloadPanic :
    secureRead testBox [1] [2] ⟨none, [10, 0, 0, 0] ++ List.replicate 10 0⟩ 100 =
      .panicked := by decide

end GoChallenge2
